import Mathlib

/-!
Verification of the sponge agent-based-model core (event calendar, grid
occupancy, symbiont resource projector) against its natural-language
specification.  The definitions below are a shallow embedding of the
Python sources: rational numbers stand for Python floats, explicit
Except values stand for raised exceptions, and every random draw that
the code consumes is passed in as an explicit argument.
-/

namespace SpongeABM

deriving instance DecidableEq for Except

/-- Python runtime exceptions that the embedded code paths can raise. -/
inductive PyErr where
  | indexError
  | keyError
  | attributeError
  | assertionError
  | typeError
  | unboundLocalError
deriving DecidableEq, Repr

/-- Event kinds, from enums.py class EventType (values -1 .. 7).  The
declaration order encodes the priority used to break ties between
simultaneous events. -/
inductive EventType where
  | EVENT_MIN_SENTINEL
  | ESCAPE
  | DIGESTION
  | END_G0
  | END_G1SG2M
  | DENOUEMENT
  | ARRIVAL
  | CANCELLED
  | EVENT_MAX_SENTINEL
deriving DecidableEq, Repr

/-- Numeric value of each EventType member, from enums.py; EventType
comparison in the source compares these values. -/
def EventType.val : EventType → Int
  | .EVENT_MIN_SENTINEL => -1
  | .ESCAPE             => 0
  | .DIGESTION          => 1
  | .END_G0             => 2
  | .END_G1SG2M         => 3
  | .DENOUEMENT         => 4
  | .ARRIVAL            => 5
  | .CANCELLED          => 6
  | .EVENT_MAX_SENTINEL => 7

/-- Symbiont states, from enums.py class SymbiontState (only the members
the embedded code paths touch are listed). -/
inductive SymbiontState where
  | CELL_OUTSIDE_ENVIRONMENT
  | ARRIVED_FROM_POOL
  | ARRIVED_VIA_DIVISION
  | IN_G0
  | IN_G1SG2M
  | CHILD_INFECTS_OUTSIDE
  | CHILD_EVICTED
  | CHILD_NO_AFFINITY
  | PARENT_INFECTS_OUTSIDE
  | PARENT_EVICTED
  | PARENT_NO_AFFINITY
  | BOTH_STAY
deriving DecidableEq, Repr

/-- Mutation outcomes, from enums.py class MutationType. -/
inductive MutationType where
  | DELETERIOUS
  | BENEFICIAL
  | NO_MUTATION
deriving DecidableEq, Repr

/-- A simulation event, from event_list.py class Event: a time, a type, the
id of the driving symbiont, and the monotonically assigned creation
counter Event._event_cnt. -/
structure Event where
  time       : ℚ
  type       : EventType
  symbiontId : ℕ
  eventNum   : ℕ
deriving DecidableEq, Repr

/-- The ordering key used by Event.__lt__: the lexicographic triple
(time, type value, event number). -/
def Event.sortKey (e : Event) : ℚ ×ₗ (ℤ ×ₗ ℕ) :=
  toLex (e.time, toLex (e.type.val, e.eventNum))

/-- Non-strict version of the Event.__lt__ tuple comparison; two distinct
events always have distinct keys in the simulation because the event
counter is unique, so this relation linearly orders any batch of events. -/
def eventLE (a b : Event) : Prop := a.sortKey ≤ b.sortKey

instance : DecidableRel eventLE := fun a b =>
  inferInstanceAs (Decidable (a.sortKey ≤ b.sortKey))

instance : IsTotal Event eventLE := ⟨fun a b => le_total a.sortKey b.sortKey⟩

instance : IsTrans Event eventLE := ⟨fun _ _ _ h1 h2 => le_trans h1 h2⟩

/-- The key under which EventList._event_finder indexes an event:
(time, type, symbiont id). -/
abbrev EventKey := ℚ × EventType × ℕ

/-- The finder key of an event, as built at the insertEvent and
getNextEvent call sites. -/
def Event.finderKey (e : Event) : EventKey := (e.time, e.type, e.symbiontId)

/-- The event calendar, from event_list.py class EventList: a binary
min-heap of events plus a dictionary from key triples to the stored event
objects.  The heap is modelled by a list kept sorted under the Event
ordering; the Python heapq module is external library code, and for a
total order with unique keys its push/pop contract yields exactly
ascending-key removal, which the sorted list realizes.  The finder maps
each key to the event number of the aliased heap entry, so that the
in-place mutations done through the dictionary reference (cancellation,
rescheduling) can be reflected into the heap entry itself. -/
structure EventList where
  heap   : List Event
  finder : List (EventKey × ℕ)
deriving DecidableEq, Repr

namespace EventList

/-- An empty calendar. -/
def empty : EventList := ⟨[], []⟩

/-- EventList.insertEvent: heap push plus finder[key] = event (a dict
assignment overwrites any previous binding of the same key). -/
def insertEvent (el : EventList) (e : Event) : EventList :=
  { heap   := List.orderedInsert eventLE e el.heap,
    finder := (e.finderKey, e.eventNum) ::
                el.finder.eraseP (fun kv => kv.1 == e.finderKey) }

/-- The pop loop inside EventList.getNextEvent: repeatedly heap-pop,
discarding cancelled entries, until a live event comes out; popping an
already empty heap inside the loop raises IndexError, exactly as the
Python heappop does when every resident entry was cancelled. -/
def popLiveLoop : List Event → Except PyErr (Event × List Event)
  | [] => .error .indexError
  | e :: rest =>
      if e.type = EventType.CANCELLED then popLiveLoop rest
      else .ok (e, rest)

/-- EventList.getNextEvent: None on an initially empty heap; otherwise run
the pop loop and, for the live event found, remove its key from the
finder (a dict pop that raises KeyError when the key is absent). -/
def getNextEvent (el : EventList) : Except PyErr (Option Event × EventList) :=
  if el.heap.isEmpty then .ok (none, el)
  else
    match popLiveLoop el.heap with
    | .error err => .error err
    | .ok (e, rest) =>
        if (el.finder.find? (fun kv => kv.1 == e.finderKey)).isSome then
          .ok (some e, { heap := rest,
                         finder := el.finder.eraseP (fun kv => kv.1 == e.finderKey) })
        else .error .keyError

/-- EventList.cancelEvent: look the event up by its key triple (KeyError
when unknown), set its type to CANCELLED through the alias, and drop the
key from the finder; the heap entry stays resident. -/
def cancelEvent (el : EventList) (time : ℚ) (ty : EventType) (sid : ℕ) :
    Except PyErr EventList :=
  let key : EventKey := (time, ty, sid)
  match el.finder.find? (fun kv => kv.1 == key) with
  | none => .error .keyError
  | some kv =>
      .ok { heap := el.heap.map (fun e =>
              if e.eventNum = kv.2 then { e with type := EventType.CANCELLED } else e),
            finder := el.finder.eraseP (fun kv => kv.1 == key) }

/-- EventList.changeEventTime: look the event up by its old key (KeyError
when unknown), assert that its stored time equals the old time, and set
the time field through the alias.  The finder is left untouched, so the
index still carries the old key; the inner lookup of the aliased heap
entry cannot fail because every finder entry references a resident heap
entry. -/
def changeEventTime (el : EventList) (oldTime newTime : ℚ) (ty : EventType) (sid : ℕ) :
    Except PyErr EventList :=
  let key : EventKey := (oldTime, ty, sid)
  match el.finder.find? (fun kv => kv.1 == key) with
  | none => .error .keyError
  | some kv =>
      match el.heap.find? (fun e => e.eventNum == kv.2) with
      | none => .error .keyError
      | some ev =>
          if ev.time = oldTime then
            .ok { el with heap := el.heap.map (fun e =>
                    if e.eventNum = kv.2 then { e with time := newTime } else e) }
          else .error .assertionError

/-- Lookup in the finder index by key triple, returning the referenced
event number when the key is present. -/
def finderLookup (el : EventList) (key : EventKey) : Option ℕ :=
  (el.finder.find? (fun kv => kv.1 == key)).map (fun kv => kv.2)

/-- Repeatedly call getNextEvent, collecting the events it yields, until
it reports an empty calendar, raises, or the fuel runs out. -/
def drain : ℕ → EventList → List Event
  | 0, _ => []
  | fuel + 1, el =>
      match el.getNextEvent with
      | .ok (some e, el2) => e :: drain fuel el2
      | _ => []

end EventList

/-- Build Event objects for a list of (time, type, symbiont id) requests,
assigning event numbers from the monotone class counter starting at cnt,
as the Event initializer does. -/
def mkEventsFrom (cnt : ℕ) : List (ℚ × EventType × ℕ) → List Event
  | [] => []
  | (t, ty, sid) :: rest => ⟨t, ty, sid, cnt⟩ :: mkEventsFrom (cnt + 1) rest

/-- Insert a batch of events into a calendar in order. -/
def insertAllEvents (el : EventList) : List Event → EventList
  | [] => el
  | e :: rest => insertAllEvents (el.insertEvent e) rest

/-! The symbiont resource projector, from symbiont.py. -/

/-- The economic state of one symbiont that the projector reads: its
production rate, mitotic cost rate, banked photosynthate, and the type of
its previous event (from which its phase is derived). -/
structure SymbiontEcon where
  productionRate       : ℚ
  mitoticCostRate      : ℚ
  photosynthateSurplus : ℚ
  prevEventType        : EventType
deriving DecidableEq, Repr

/-- Symbiont._getState: derive the current phase from the previous event
type; any other previous event type trips the assert(False) at the end of
the method. -/
def getState : EventType → Except PyErr SymbiontState
  | .ARRIVAL    => .ok .IN_G0
  | .END_G0     => .ok .IN_G1SG2M
  | .END_G1SG2M => .ok .IN_G0
  | _           => .error .assertionError

/-- The projected bank computed by the first half of
Symbiont._computeSurplusAtEventEnd (symbiont.py lines 496 to 517):
production accrues at the production rate, the host cell demand is split
equally over the occupant count, and only a symbiont in G1SG2M also pays
the mitotic cost.  The call sites always pass a nonempty occupant list,
so the division by the occupant count is never by zero. -/
def surplusAtEnd (sym : SymbiontEcon) (cellDemand : ℚ) (numSymbiontsInCell : ℕ)
    (thisTime nextTime : ℚ) : Except PyErr ℚ := do
  let timeDiff := nextTime - thisTime
  let produced := timeDiff * sym.productionRate
  let demanded := timeDiff * (cellDemand / (numSymbiontsInCell : ℚ))
  let state ← getState sym.prevEventType
  let expended := if state = SymbiontState.IN_G1SG2M then timeDiff * sym.mitoticCostRate else 0
  return sym.photosynthateSurplus + produced - demanded - expended

/-- The zero-crossing computation of Symbiont._computeSurplusAtEventEnd
(symbiont.py lines 552 to 558): the slope through (thisTime, bank) and
(nextTime, surplusEnd) and the time at which that line reaches zero. -/
def digestionTime (bank surplusEnd thisTime nextTime : ℚ) : ℚ :=
  let m := (surplusEnd - bank) / (nextTime - thisTime)
  thisTime - bank / m

/-- Symbiont._computeSurplusAtEventEnd in full.  The two uniform draws the
method consumes are passed in: uFlip is the escape-versus-digestion coin
flip and uEsc the fraction placing the escape time inside
(thisTime, digestion time).  When the projected bank is negative and the
symbiont is in G1SG2M, the source reaches the mis-cased call
self._getstate() on line 571, an attribute that does not exist, so that
branch raises AttributeError. -/
def computeSurplusAtEventEnd (sym : SymbiontEcon) (cellDemand : ℚ)
    (numSymbiontsInCell : ℕ) (g0EscapeProb g1sg2mEscapeProb : ℚ)
    (uFlip uEsc : ℚ) (thisTime nextTime : ℚ) :
    Except PyErr (ℚ × Option ℚ × Option ℚ) := do
  let s ← surplusAtEnd sym cellDemand numSymbiontsInCell thisTime nextTime
  if s < 0 then
    if nextTime - thisTime > 0 then
      let td := digestionTime sym.photosynthateSurplus s thisTime nextTime
      let st ← getState sym.prevEventType
      if st = SymbiontState.IN_G0 then
        let prob := g0EscapeProb
        if uFlip < prob then
          return (s, some td, some (thisTime + uEsc * (td - thisTime)))
        else
          return (s, some td, none)
      else
        .error .attributeError
    else .error .assertionError
  else
    return (s, none, none)

/-- The five per-symbiont life-cycle clocks, each defaulting to infinity
(modelled as the top element of WithTop). -/
structure SymbiontTimes where
  timeOfDigestion     : WithTop ℚ
  timeOfEscape        : WithTop ℚ
  timeOfNextEndG0     : WithTop ℚ
  timeOfNextEndG1SG2M : WithTop ℚ
  timeOfDenouement    : WithTop ℚ
deriving DecidableEq, Repr

/-- Symbiont._projectToSymbiontNextEvent: project across the coming event
and either schedule it or substitute a digestion or escape.  On the
negative-projection path the local time of digestion is always a finite
number, so the assert comparing it against INFINITY inside the
time-of-exit branch fails whenever the escape coin flip succeeded. -/
def projectToSymbiontNextEvent (sym : SymbiontEcon) (times : SymbiontTimes)
    (cellDemand : ℚ) (numSymbiontsInCell : ℕ)
    (g0EscapeProb g1sg2mEscapeProb : ℚ) (uFlip uEsc : ℚ)
    (currentTime nextEventTime : ℚ) (nextEventType : EventType) :
    Except PyErr SymbiontTimes := do
  if nextEventType = EventType.END_G0 ∨ nextEventType = EventType.END_G1SG2M then
    let (s, td?, tee?) ← computeSurplusAtEventEnd sym cellDemand numSymbiontsInCell
        g0EscapeProb g1sg2mEscapeProb uFlip uEsc currentTime nextEventTime
    if s < 0 then
      let tdv : WithTop ℚ := match td? with
        | some td => (td : WithTop ℚ)
        | none => ⊤
      let withDig := { times with timeOfDigestion := tdv }
      match tee? with
      | some te =>
          if tdv = ⊤ then
            return { withDig with timeOfEscape := (te : WithTop ℚ) }
          else .error .assertionError
      | none => return withDig
    else
      if nextEventType = EventType.END_G0 then
        return { times with timeOfNextEndG0 := (nextEventTime : WithTop ℚ) }
      else
        return { times with timeOfNextEndG1SG2M := (nextEventTime : WithTop ℚ) }
  else .error .assertionError

/-- Symbiont.cancelEventWithinSymbiont: asserts that the cancelled type is
digestion or escape, then resets that clock to infinity. -/
def cancelEventWithinSymbiont (times : SymbiontTimes) (eventType : EventType) :
    Except PyErr SymbiontTimes :=
  if eventType = EventType.DIGESTION ∨ eventType = EventType.ESCAPE then
    if eventType = EventType.DIGESTION then
      .ok { times with timeOfDigestion := ⊤ }
    else
      .ok { times with timeOfEscape := ⊤ }
  else .error .assertionError

/-- A remaining co-occupant as seen by Symbiont._symbiontExitFromCell: its
scheduled next event and its clocks. -/
structure CoOccupant where
  nextEventTime : ℚ
  nextEventType : EventType
  times         : SymbiontTimes
deriving DecidableEq, Repr

/-- One iteration of the loop in Symbiont._symbiontExitFromCell, for one
remaining co-occupant s.  Faithful to the source, the projection is made
with the fields of the exiting symbiont (the method calls
self._computeSurplusAtEventEnd and assigns self._time_of_digestion), the
end-of-G0 and end-of-G1SG2M case hands the pending type to
cancelEventWithinSymbiont whose assert only admits digestion or escape,
and the digestion and escape case ends at the class-level call
EventList.changeEventTime(...) that is missing its instance argument and
therefore raises TypeError. -/
def exitReprojectOne (selfSym : SymbiontEcon) (cellDemand : ℚ)
    (numRemaining : ℕ) (g0EscapeProb g1sg2mEscapeProb : ℚ) (uFlip uEsc : ℚ)
    (currentTime : ℚ) (s : CoOccupant) : Except PyErr CoOccupant := do
  let (surplus, td?, tee?) ← computeSurplusAtEventEnd selfSym cellDemand numRemaining
      g0EscapeProb g1sg2mEscapeProb uFlip uEsc currentTime s.nextEventTime
  if surplus < 0 then
    if s.nextEventType = EventType.END_G0 ∨ s.nextEventType = EventType.END_G1SG2M then
      let times2 ← cancelEventWithinSymbiont s.times s.nextEventType
      return { s with times := times2 }
    else if s.nextEventType = EventType.DIGESTION ∨ s.nextEventType = EventType.ESCAPE then
      match td?, tee? with
      | some td, some _ =>
          if (td : WithTop ℚ) = ⊤ then .error .typeError
          else .error .assertionError
      | _, _ => .error .typeError
    else return s
  else return s

/-- The loop of Symbiont._symbiontExitFromCell over the remaining
co-occupants of the cell of the just-departed symbiont; an exception in
one iteration aborts the whole handler. -/
def symbiontExitFromCell (selfSym : SymbiontEcon) (cellDemand : ℚ)
    (others : List CoOccupant) (g0EscapeProb g1sg2mEscapeProb : ℚ)
    (uFlip uEsc : ℚ) (currentTime : ℚ) : Except PyErr (List CoOccupant) :=
  others.mapM (exitReprojectOne selfSym cellDemand others.length
      g0EscapeProb g1sg2mEscapeProb uFlip uEsc currentTime)

/-! The host cell occupancy model, from sponge.py. -/

/-- An occupant of a host cell: a symbiont id and its clade number. -/
structure Occupant where
  sid   : ℕ
  clade : ℕ
deriving DecidableEq, Repr

/-- A host cell, from sponge.py class Cell: the ordered occupant list and
the maximum occupancy. -/
structure Cell where
  occupants    : List Occupant
  maxOccupants : ℕ
deriving DecidableEq, Repr

/-- Cell.isEmpty. -/
def Cell.isEmpty (c : Cell) : Bool := c.occupants.length == 0

/-- Cell.addSymbiont: asserts spare capacity, then appends. -/
def Cell.addSymbiont (c : Cell) (s : Occupant) : Except PyErr Cell :=
  if c.occupants.length < c.maxOccupants then
    .ok { c with occupants := c.occupants ++ [s] }
  else .error .assertionError

/-- Cell.removeSymbiont: asserts membership, then removes. -/
def Cell.removeSymbiont (c : Cell) (s : Occupant) : Except PyErr Cell :=
  if s ∈ c.occupants then
    .ok { c with occupants := c.occupants.erase s }
  else .error .assertionError

/-- The argument passed as which_clade to Cell.isRoomFor.  The call sites
in simulation.py and in Sponge.checkForOpenAdjacentCell pass an integer
clade number, but Symbiont.generateArrival passes the Clade object
obtained from Clade.getClade.  The Clade class defines no equality
method, so the Python comparison of a Clade object with an integer falls
back to identity and is always False. -/
inductive CladeArg where
  | intArg (n : ℕ)
  | objArg (n : ℕ)
deriving DecidableEq, Repr

/-- The Python equality test which_clade == clade_check performed inside
Cell.isRoomFor, where clade_check is the integer clade number of the
first occupant. -/
def CladeArg.pyEq : CladeArg → ℕ → Bool
  | .intArg n, m => n == m
  | .objArg _, _ => false

/-- Cell.isRoomFor: an empty cell always has room; a full cell never
does; otherwise assert that all present occupants share one clade and
compare the requesting clade against it with the Python equality above. -/
def Cell.isRoomFor (c : Cell) (whichClade : CladeArg) : Except PyErr Bool :=
  match c.occupants with
  | [] => .ok true
  | s0 :: rest =>
      if c.occupants.length = c.maxOccupants then .ok false
      else if rest.all (fun s => s.clade == s0.clade) then
        .ok (whichClade.pyEq s0.clade)
      else .error .assertionError

/-- The open-cell collection loop of Symbiont.findOpenCell: keep each cell
satisfying cell.isEmpty() or cell.isRoomFor(which_clade), with the Python
or operator short-circuiting so that isRoomFor is not consulted for an
empty cell. -/
def openCellFilter (cells : List Cell) (whichClade : CladeArg) :
    Except PyErr (List Cell) :=
  match cells with
  | [] => .ok []
  | c :: rest => do
      let keep ← if c.isEmpty then pure true else c.isRoomFor whichClade
      let tailKept ← openCellFilter rest whichClade
      return (if keep then c :: tailKept else tailKept)

/-- Symbiont.findOpenCell: collect the open cells of the grid and pick one
at random; pick stands for the randint draw over the collected list. -/
def findOpenCell (cells : List Cell) (whichClade : CladeArg) (pick : ℕ) :
    Except PyErr (Option Cell) := do
  let opens ← openCellFilter cells whichClade
  if opens.length = 0 then return none
  else return opens.get? pick

/-- The open-cell search as performed for a pool arrival:
Symbiont.generateArrival calls cls.findOpenCell(this_clade) where
this_clade is the Clade object of the arriving clade, not its integer
number. -/
def generateArrivalOpenCell (cells : List Cell) (cladeNumber : ℕ) (pick : ℕ) :
    Except PyErr (Option Cell) :=
  findOpenCell cells (CladeArg.objArg cladeNumber) pick

/-! The division mutation model, from rng_mt19937.py and symbiont.py. -/

/-- The two clade probabilities consumed by RNG.divfuzz. -/
structure CladeMut where
  phenotypicMutationProb : ℚ
  deleteriousProb        : ℚ
deriving DecidableEq, Repr

/-- RNG.divfuzz: u1 is the phenotypic-mutation coin flip, u2 the
deleterious-versus-beneficial flip, and variate the accepted
rejection-sampled gamma percentage (the rejection loops guarantee it is
below 100 for a deleterious and at most 10 for a beneficial mutation).
Returns the fuzz amount and the mutation type; with no mutation the fuzz
amount is zero. -/
def divfuzz (value : ℚ) (clade : CladeMut) (u1 u2 variate : ℚ) :
    ℚ × MutationType :=
  if u1 < clade.phenotypicMutationProb then
    if u2 < clade.deleteriousProb then
      (value * variate / 100, MutationType.DELETERIOUS)
    else
      (value * variate / 100, MutationType.BENEFICIAL)
  else (0, MutationType.NO_MUTATION)

/-- The bank split performed by Symbiont._SymbiontCopy (symbiont.py lines
352 to 383): the child receives half of the parent bank passed through
the mutation model, and the parent bank is decremented by the same
amount.  Returns (child bank, parent bank after division). -/
def symbiontCopyBankSplit (parentBank : ℚ) (clade : CladeMut)
    (u1 u2 variate : ℚ) : ℚ × ℚ :=
  let half := parentBank / 2
  let fm := divfuzz half clade u1 u2 variate
  let fuzzedhalf :=
    match fm.2 with
    | MutationType.DELETERIOUS => half - fm.1
    | MutationType.BENEFICIAL  => half + fm.1
    | MutationType.NO_MUTATION => half
  (fuzzedhalf, parentBank - fuzzedhalf)

/-! The no-open-cell division branch of Symbiont.endOfG1SG2M. -/

/-- The observable outcome of the no-open-cell branch of
Symbiont.endOfG1SG2M: the returned status, the occupants of the original
cell afterwards, and whether the parent still owns a cell. -/
structure DivisionStep where
  status         : SymbiontState
  occupantsAfter : List Occupant
  parentHasCell  : Bool
deriving DecidableEq, Repr

/-- The no-open-cell branch of Symbiont.endOfG1SG2M (symbiont.py lines
1009 to 1042): a draw u below the parent-eviction probability evicts the
parent (remove the parent from the cell, add the child, set the parent
cell reference to None); otherwise the child is evicted into the pool and
the cell is unchanged. -/
def endOfG1SG2MNoOpenCellBranch (cell : Cell) (parent child : Occupant)
    (evictionProb u : ℚ) : Except PyErr DivisionStep := do
  if u < evictionProb then
    let c1 ← cell.removeSymbiont parent
    let c2 ← c1.addSymbiont child
    return ⟨SymbiontState.PARENT_EVICTED, c2.occupants, false⟩
  else
    return ⟨SymbiontState.CHILD_EVICTED, cell.occupants, true⟩

/-- The tail of Symbiont.endOfG1SG2M after the outcome decision tree:
time_of_end_of_g0 is assigned only inside the guard that excludes the
parent-evicted, parent-infects-outside and parent-no-affinity statuses
(lines 1047 to 1053), yet the call to _projectToSymbiontNextEvent at line
1078 reads the name unconditionally, so on those statuses Python raises
UnboundLocalError before the handler can return.  The value returned on
the surviving statuses is the next-end-of-G0 time handed to the
projection. -/
def endOfG1SG2MTail (status : SymbiontState) (endG0Time : ℚ) :
    Except PyErr ℚ :=
  let timeOfEndOfG0 : Option ℚ :=
    if status = SymbiontState.PARENT_EVICTED ∨
       status = SymbiontState.PARENT_INFECTS_OUTSIDE ∨
       status = SymbiontState.PARENT_NO_AFFINITY then none
    else some endG0Time
  match timeOfEndOfG0 with
  | none => .error .unboundLocalError
  | some t => .ok t

/-- The no-open-cell branch followed by the unconditional re-projection
step, propagating the UnboundLocalError of the tail. -/
def endOfG1SG2MNoOpenCell (cell : Cell) (parent child : Occupant)
    (evictionProb u : ℚ) (endG0Time : ℚ) :
    Except PyErr (DivisionStep × ℚ) := do
  let step ← endOfG1SG2MNoOpenCellBranch cell parent child evictionProb u
  let t ← endOfG1SG2MTail step.status endG0Time
  return (step, t)

/-! Reachable cell states, for the occupancy invariant. -/

/-- Grid states of one cell reachable through the addSymbiont and
removeSymbiont calls as issued by the handlers.  Each constructor mirrors
one guarded call site: initial placement and pool arrival add through the
open-cell searches whose guard is cell.isEmpty() or
cell.isRoomFor(integer clade); division adds a same-clade child to a cell
that already hosts a same-clade symbiont (the parent before its removal,
or the co-occupants left behind); exits remove a present occupant. -/
inductive ReachableCell : Cell → Prop where
  | init (maxOcc : ℕ) : ReachableCell ⟨[], maxOcc⟩
  | addToEmpty {c c2 : Cell} {s : Occupant} :
      ReachableCell c → c.occupants = [] →
      c.addSymbiont s = .ok c2 → ReachableCell c2
  | addWithRoom {c c2 : Cell} {s : Occupant} :
      ReachableCell c → c.isRoomFor (CladeArg.intArg s.clade) = .ok true →
      c.addSymbiont s = .ok c2 → ReachableCell c2
  | addAtDivision {c c2 : Cell} {s q : Occupant} :
      ReachableCell c → q ∈ c.occupants → q.clade = s.clade →
      c.addSymbiont s = .ok c2 → ReachableCell c2
  | removeOccupant {c c2 : Cell} {s : Occupant} :
      ReachableCell c → c.removeSymbiont s = .ok c2 → ReachableCell c2

/-! Supporting lemmas. -/

theorem isRoomFor_objArg_not_true {s0 : Occupant} {r : List Occupant}
    {maxOcc j : ℕ} {b : Bool}
    (h : Cell.isRoomFor ⟨s0 :: r, maxOcc⟩ (CladeArg.objArg j) = Except.ok b) :
    b = false := by
  simp only [Cell.isRoomFor, CladeArg.pyEq] at h
  split_ifs at h with h1 h2
  · injection h with hb
    exact hb.symm
  · injection h with hb
    exact hb.symm

theorem isRoomFor_intArg_true {s0 : Occupant} {r : List Occupant} {maxOcc k : ℕ}
    (h : Cell.isRoomFor ⟨s0 :: r, maxOcc⟩ (CladeArg.intArg k) = Except.ok true) :
    ∀ a ∈ s0 :: r, a.clade = k := by
  simp only [Cell.isRoomFor, CladeArg.pyEq] at h
  split_ifs at h with h1 h2
  · injection h with hb
    cases hb
  · injection h with hb
    have hk : k = s0.clade := eq_of_beq hb
    intro a ha
    rcases List.mem_cons.mp ha with rfl | har
    · exact hk.symm
    · have hall := List.all_eq_true.mp h2 a har
      have hac : a.clade = s0.clade := eq_of_beq hall
      rw [hac, hk]

theorem openCellFilter_objArg_empty {cells : List Cell} {j : ℕ} {opens : List Cell}
    (h : openCellFilter cells (CladeArg.objArg j) = Except.ok opens) :
    ∀ c ∈ opens, c.isEmpty = true := by
  induction cells generalizing opens with
  | nil =>
      simp only [openCellFilter] at h
      injection h with h2
      subst h2
      simp
  | cons c rest ih =>
      by_cases hemp : c.isEmpty = true
      · rw [openCellFilter, if_pos hemp] at h
        cases hrec : openCellFilter rest (CladeArg.objArg j) with
        | error e =>
            rw [hrec] at h
            simp [bind, Except.bind, pure, Except.pure] at h
        | ok tl =>
            rw [hrec] at h
            simp only [bind, Except.bind, pure, Except.pure, if_true] at h
            injection h with h2
            subst h2
            intro x hx
            rcases List.mem_cons.mp hx with rfl | hxl
            · exact hemp
            · exact ih hrec x hxl
      · rw [openCellFilter, if_neg hemp] at h
        obtain ⟨occ, maxOcc⟩ := c
        cases occ with
        | nil => simp [Cell.isEmpty] at hemp
        | cons s0 r =>
            cases hroom : Cell.isRoomFor ⟨s0 :: r, maxOcc⟩ (CladeArg.objArg j) with
            | error e =>
                rw [hroom] at h
                simp [bind, Except.bind] at h
            | ok b =>
                have hb : b = false := isRoomFor_objArg_not_true hroom
                subst hb
                rw [hroom] at h
                cases hrec : openCellFilter rest (CladeArg.objArg j) with
                | error e =>
                    rw [hrec] at h
                    simp [bind, Except.bind, pure, Except.pure] at h
                | ok tl =>
                    rw [hrec] at h
                    simp only [bind, Except.bind, pure, Except.pure, if_false,
                      Bool.false_eq_true] at h
                    injection h with h2
                    subst h2
                    exact ih hrec

/-! Claim theorems. -/

/-- C1: the projected bank over an interval from t0 to t1 in a cell with n
occupants equals the current bank plus production at the production rate,
minus the equally split cell demand, minus the mitotic cost exactly when
the occupant is in G1SG2M; when the projected bank is negative, the
computed digestion time is the zero crossing of the line through
(t0, bank) and (t1, projected bank), which for a positive bank equals
t0 + bank (t1 - t0) / (bank - projected). -/
theorem resource_projection_formula (sym : SymbiontEcon) (d : ℚ) (n : ℕ)
    (t0 t1 : ℚ) (st : SymbiontState)
    (hst : getState sym.prevEventType = Except.ok st)
    (hn : 0 < n) (ht : t0 < t1) :
    surplusAtEnd sym d n t0 t1 =
      Except.ok (sym.photosynthateSurplus + sym.productionRate * (t1 - t0)
        - (d / (n : ℚ)) * (t1 - t0)
        - (if st = SymbiontState.IN_G1SG2M then sym.mitoticCostRate * (t1 - t0) else 0))
    ∧ (∀ s : ℚ, s < 0 → 0 ≤ sym.photosynthateSurplus →
        (sym.photosynthateSurplus
          + ((s - sym.photosynthateSurplus) / (t1 - t0))
            * (digestionTime sym.photosynthateSurplus s t0 t1 - t0) = 0
        ∧ digestionTime sym.photosynthateSurplus s t0 t1 =
            t0 + sym.photosynthateSurplus * (t1 - t0) / (sym.photosynthateSurplus - s))) := by
  constructor
  · unfold surplusAtEnd
    rw [hst]
    show Except.ok _ = _
    congr 1
    split_ifs <;> ring
  · intro s hs hb
    have hdt : t1 - t0 ≠ 0 := by intro hc; rw [sub_eq_zero] at hc; exact absurd hc.symm (ne_of_lt ht)
    have hm : s - sym.photosynthateSurplus ≠ 0 := by
      intro hc
      rw [sub_eq_zero] at hc
      have : s < s := lt_of_lt_of_le hs (hc ▸ hb)
      exact lt_irrefl s this
    constructor
    · unfold digestionTime
      field_simp
      ring
    · unfold digestionTime
      have hms : sym.photosynthateSurplus - s ≠ 0 := by
        intro hc; apply hm; linarith [sub_eq_zero.mp hc]
      field_simp
      ring

/-- C1 witness: the spec scenario of a single occupant in G0 with
production rate one half per day, cell demand one per day and bank two,
projected over ten days: the projected bank is minus three and the
computed digestion time is t0 + 4 with t0 = 0. -/
theorem resource_projection_formula_witness :
    getState EventType.ARRIVAL = Except.ok SymbiontState.IN_G0
    ∧ surplusAtEnd ⟨1/2, 0, 2, EventType.ARRIVAL⟩ 1 1 0 10 = Except.ok (-3)
    ∧ digestionTime 2 (-3) 0 10 = 0 + 4 := by
  have h := resource_projection_formula ⟨1/2, 0, 2, EventType.ARRIVAL⟩ 1 1 0 10
    SymbiontState.IN_G0 rfl (by decide) (by norm_num)
  refine ⟨rfl, ?_, ?_⟩
  · rw [h.1]
    norm_num
  · have h2 := (h.2 (-3) (by norm_num) (by norm_num)).2
    rw [h2]
    norm_num

/-- C3: the claim that the negative-projection handler completes without
error on both phase branches fails on the code.  In G1SG2M the source
reaches the mis-cased self._getstate() and raises AttributeError; in G0 a
successful escape coin flip runs into the assert comparing the finite
computed digestion time against INFINITY inside
_projectToSymbiontNextEvent, which raises AssertionError. -/
theorem escape_decision_raises :
    computeSurplusAtEventEnd ⟨1/2, 1, 2, EventType.END_G0⟩ 1 1 (1/2) (1/2) 0 (1/2) 0 10
      = Except.error PyErr.attributeError
    ∧ projectToSymbiontNextEvent ⟨1/2, 0, 2, EventType.ARRIVAL⟩ ⟨⊤, ⊤, ⊤, ⊤, ⊤⟩
        1 1 (1/2) (1/2) 0 (1/2) 0 10 EventType.END_G1SG2M
      = Except.error PyErr.assertionError := by
  constructor
  · norm_num [computeSurplusAtEventEnd, surplusAtEnd, getState, digestionTime,
      bind, Except.bind, pure, Except.pure]
    intro h
    exact absurd h (by decide)
  · norm_num [projectToSymbiontNextEvent, computeSurplusAtEventEnd, surplusAtEnd,
      getState, digestionTime, bind, Except.bind, pure, Except.pure]

/-- C4: the claim that an exiting agent re-projects its co-occupants,
cancelling end-of-phase events and tightening digestion or escape times
in place, fails on the code.  For a co-occupant with a pending end-of-G0
whose projection goes negative, cancelEventWithinSymbiont is handed
END_G0 and its assert admits only digestion or escape, raising
AssertionError; for a co-occupant with a pending digestion, the
class-level call EventList.changeEventTime misses its instance argument
and raises TypeError. -/
theorem exit_reprojection_raises :
    symbiontExitFromCell ⟨1/2, 0, 0, EventType.ARRIVAL⟩ 1
        [⟨10, EventType.END_G0, ⟨⊤, ⊤, ⊤, ⊤, ⊤⟩⟩] 0 0 (1/2) (1/2) 0
      = Except.error PyErr.assertionError
    ∧ symbiontExitFromCell ⟨1/2, 0, 0, EventType.ARRIVAL⟩ 1
        [⟨10, EventType.DIGESTION, ⟨⊤, ⊤, ⊤, ⊤, ⊤⟩⟩] 0 0 (1/2) (1/2) 0
      = Except.error PyErr.typeError := by
  constructor
  · norm_num [symbiontExitFromCell, exitReprojectOne, cancelEventWithinSymbiont,
      computeSurplusAtEventEnd, surplusAtEnd, getState, digestionTime,
      List.mapM, List.mapM.loop, bind, Except.bind, pure, Except.pure,
      (by decide : ¬(EventType.END_G0 = EventType.DIGESTION ∨ EventType.END_G0 = EventType.ESCAPE))]
  · norm_num [symbiontExitFromCell, exitReprojectOne, cancelEventWithinSymbiont,
      computeSurplusAtEventEnd, surplusAtEnd, getState, digestionTime,
      List.mapM, List.mapM.loop, bind, Except.bind, pure, Except.pure,
      (by decide : ¬(EventType.DIGESTION = EventType.END_G0 ∨ EventType.DIGESTION = EventType.END_G1SG2M))]

/-- C5: when the mutation probability is zero no mutation is drawn, and
the bank handed to the child plus the bank left to the parent equals the
parent bank before the division, exactly. -/
theorem bank_conservation_at_division (parentBank : ℚ) (clade : CladeMut)
    (u1 u2 variate : ℚ) (hp : clade.phenotypicMutationProb = 0) (hu : 0 ≤ u1) :
    (divfuzz (parentBank / 2) clade u1 u2 variate).2 = MutationType.NO_MUTATION
    ∧ (symbiontCopyBankSplit parentBank clade u1 u2 variate).1
        + (symbiontCopyBankSplit parentBank clade u1 u2 variate).2 = parentBank := by
  have hlt : ¬ u1 < clade.phenotypicMutationProb := by
    rw [hp]; exact not_lt.mpr hu
  refine ⟨by simp [divfuzz, hlt], ?_⟩
  simp only [symbiontCopyBankSplit, divfuzz, if_neg hlt]
  ring

/-- C5 witness: a concrete division with mutation probability zero splits
a bank of three into halves that sum back to three. -/
theorem bank_conservation_at_division_witness :
    (0:ℚ) ≤ 1/2
    ∧ (divfuzz ((3:ℚ) / 2) ⟨0, 1/2⟩ (1/2) (1/2) 5).2 = MutationType.NO_MUTATION
    ∧ (symbiontCopyBankSplit 3 ⟨0, 1/2⟩ (1/2) (1/2) 5).1
        + (symbiontCopyBankSplit 3 ⟨0, 1/2⟩ (1/2) (1/2) 5).2 = 3 := by
  have h := bank_conservation_at_division 3 ⟨0, 1/2⟩ (1/2) (1/2) 5 rfl (by norm_num)
  exact ⟨by norm_num, h.1, h.2⟩

/-- C6: in the no-open-cell division branch with parent-eviction
probability one, the branch itself produces status PARENT_EVICTED, the
parent is removed from the cell and left without a cell, and the child
occupies the original cell; but the handler then raises
UnboundLocalError, because time_of_end_of_g0 is assigned only on the
surviving-parent statuses yet read unconditionally by the re-projection
call, so the status is never returned to the driver. -/
theorem division_no_open_cell_parent_evicted (cell : Cell) (parent child : Occupant)
    (u endG0Time : ℚ) (hu1 : u < 1)
    (hmem : parent ∈ cell.occupants) (hcnt : cell.occupants.count parent = 1)
    (hne : child ≠ parent) (hcap : cell.occupants.length ≤ cell.maxOccupants) :
    endOfG1SG2MNoOpenCellBranch cell parent child 1 u =
        Except.ok ⟨SymbiontState.PARENT_EVICTED, cell.occupants.erase parent ++ [child], false⟩
    ∧ child ∈ cell.occupants.erase parent ++ [child]
    ∧ parent ∉ cell.occupants.erase parent ++ [child]
    ∧ endOfG1SG2MNoOpenCell cell parent child 1 u endG0Time =
        Except.error PyErr.unboundLocalError := by
  have hlen0 : 0 < cell.occupants.length := List.length_pos.mpr (List.ne_nil_of_mem hmem)
  have hel : (cell.occupants.erase parent).length < cell.maxOccupants := by
    rw [List.length_erase_of_mem hmem]
    omega
  have hbranch : endOfG1SG2MNoOpenCellBranch cell parent child 1 u =
      Except.ok ⟨SymbiontState.PARENT_EVICTED, cell.occupants.erase parent ++ [child], false⟩ := by
    simp only [endOfG1SG2MNoOpenCellBranch, Cell.removeSymbiont, Cell.addSymbiont,
      if_pos hu1, if_pos hmem, bind, Except.bind, pure, Except.pure]
    rw [if_pos hel]
  refine ⟨hbranch, by simp, ?_, ?_⟩
  · intro hp
    rcases List.mem_append.mp hp with h1 | h1
    · have h0 : List.count parent (cell.occupants.erase parent) = 0 := by
        rw [List.count_erase_self, hcnt]
      exact (List.count_eq_zero.mp h0) h1
    · have : parent = child := by simpa using h1
      exact hne this.symm
  · simp only [endOfG1SG2MNoOpenCell, hbranch, bind, Except.bind]
    simp [endOfG1SG2MTail]

/-- C6 witness: a full single-occupant cell, eviction probability one and
draw zero: the branch evicts the parent and houses the child, and the
composed handler raises UnboundLocalError. -/
theorem division_no_open_cell_parent_evicted_witness :
    (0:ℚ) < 1
    ∧ endOfG1SG2MNoOpenCellBranch ⟨[⟨7, 0⟩], 1⟩ ⟨7, 0⟩ ⟨9, 0⟩ 1 0 =
        Except.ok ⟨SymbiontState.PARENT_EVICTED, [⟨9, 0⟩], false⟩
    ∧ endOfG1SG2MNoOpenCell ⟨[⟨7, 0⟩], 1⟩ ⟨7, 0⟩ ⟨9, 0⟩ 1 0 25 =
        Except.error PyErr.unboundLocalError := by
  have h := division_no_open_cell_parent_evicted ⟨[⟨7, 0⟩], 1⟩ ⟨7, 0⟩ ⟨9, 0⟩ 0 25
    (by norm_num) (by decide) (by decide) (by decide) (by decide)
  exact ⟨by norm_num, h.1, h.2.2.2⟩

/-- C8: popping an initially empty calendar returns the none sentinel,
but the claim that a calendar whose physically resident entries are all
cancelled also yields none fails on the code: the pop loop never tests
for emptiness, so the final heappop raises IndexError. -/
theorem pop_exhausted_calendar :
    EventList.empty.getNextEvent = Except.ok (none, EventList.empty)
    ∧ (((EventList.empty.insertEvent ⟨1, EventType.END_G0, 0, 0⟩).cancelEvent
          1 EventType.END_G0 0).bind EventList.getNextEvent)
      = Except.error PyErr.indexError := by
  exact ⟨by decide, by decide⟩

/-- C9: changeEventTime mutates only the time field of the aliased event,
but the claim about the key index fails on the code: the finder is never
re-keyed, so the lookup by the new key fails while the lookup by the old
key still succeeds, and the next pop of the rescheduled event raises
KeyError when it tries to drop the now mismatched key. -/
theorem reschedule_leaves_stale_index :
    (EventList.empty.insertEvent ⟨1, EventType.END_G0, 0, 0⟩).changeEventTime
        1 2 EventType.END_G0 0
      = Except.ok ⟨[⟨2, EventType.END_G0, 0, 0⟩], [((1, EventType.END_G0, 0), 0)]⟩
    ∧ EventList.finderLookup ⟨[⟨2, EventType.END_G0, 0, 0⟩], [((1, EventType.END_G0, 0), 0)]⟩
        (2, EventType.END_G0, 0) = none
    ∧ EventList.finderLookup ⟨[⟨2, EventType.END_G0, 0, 0⟩], [((1, EventType.END_G0, 0), 0)]⟩
        (1, EventType.END_G0, 0) = some 0
    ∧ EventList.getNextEvent ⟨[⟨2, EventType.END_G0, 0, 0⟩], [((1, EventType.END_G0, 0), 0)]⟩
      = Except.error PyErr.keyError := by
  exact ⟨by decide, by decide, by decide, by decide⟩

/-- C10: the open-cell search made for a pool arrival receives the Clade
object rather than the integer clade number, the identity-based Python
comparison against an integer clade never succeeds, and therefore any
cell the search returns is empty. -/
theorem pool_arrival_lands_in_empty_cell (cells : List Cell) (cladeNumber pick : ℕ)
    (cell : Cell)
    (h : generateArrivalOpenCell cells cladeNumber pick = Except.ok (some cell)) :
    cell.isEmpty = true := by
  unfold generateArrivalOpenCell findOpenCell at h
  cases hfil : openCellFilter cells (CladeArg.objArg cladeNumber) with
  | error e =>
      rw [hfil] at h
      simp [bind, Except.bind] at h
  | ok opens =>
      rw [hfil] at h
      simp only [bind, Except.bind, pure, Except.pure] at h
      by_cases hlen : opens.length = 0
      · rw [if_pos hlen] at h
        simp at h
      · rw [if_neg hlen] at h
        injection h with h2
        exact openCellFilter_objArg_empty hfil cell (List.get?_mem h2)

/-- C10 witness: with one empty cell and one partially occupied
same-clade cell, the arrival search with the Clade object selects the
empty cell. -/
theorem pool_arrival_lands_in_empty_cell_witness :
    generateArrivalOpenCell [⟨[], 5⟩, ⟨[⟨3, 0⟩], 5⟩] 0 0 = Except.ok (some ⟨[], 5⟩)
    ∧ Cell.isEmpty ⟨[], 5⟩ = true :=
  ⟨by decide, pool_arrival_lands_in_empty_cell [⟨[], 5⟩, ⟨[⟨3, 0⟩], 5⟩] 0 0 ⟨[], 5⟩ (by decide)⟩

/-- C7: every cell state reachable through the addSymbiont and
removeSymbiont calls as issued by the arrival, division and exit handlers
keeps its occupant count within capacity and all of its occupants in one
clade. -/
theorem cell_occupancy_invariant {c : Cell} (h : ReachableCell c) :
    c.occupants.length ≤ c.maxOccupants ∧
    ∀ a ∈ c.occupants, ∀ b ∈ c.occupants, a.clade = b.clade := by
  induction h with
  | init maxOcc => exact ⟨by simp, by simp⟩
  | addToEmpty hre hnil hadd ih =>
      rename_i c c2 s
      unfold Cell.addSymbiont at hadd
      split_ifs at hadd with hlt
      · injection hadd with h2
        subst h2
        refine ⟨by simp [hnil]; omega, ?_⟩
        simp [hnil]
  | addWithRoom hre hroom hadd ih =>
      rename_i c c2 s
      unfold Cell.addSymbiont at hadd
      split_ifs at hadd with hlt
      · injection hadd with h2
        subst h2
        refine ⟨by simp; omega, ?_⟩
        obtain ⟨occ, maxOcc⟩ := c
        cases occ with
        | nil =>
            simp
        | cons s0 r =>
            have hall : ∀ a ∈ s0 :: r, a.clade = s.clade := isRoomFor_intArg_true hroom
            intro a ha b hb
            simp only [List.mem_append, List.mem_singleton] at ha hb
            rcases ha with ha | rfl <;> rcases hb with hb | rfl
            · exact (ih.2 a ha b hb)
            · exact hall a ha
            · exact (hall b hb).symm
            · rfl
  | addAtDivision hre hq hclade hadd ih =>
      rename_i c c2 s q
      unfold Cell.addSymbiont at hadd
      split_ifs at hadd with hlt
      · injection hadd with h2
        subst h2
        refine ⟨by simp; omega, ?_⟩
        have hall : ∀ a ∈ c.occupants, a.clade = s.clade := by
          intro a ha
          rw [ih.2 a ha q hq, hclade]
        intro a ha b hb
        simp only [List.mem_append, List.mem_singleton] at ha hb
        rcases ha with ha | rfl <;> rcases hb with hb | rfl
        · exact (ih.2 a ha b hb)
        · exact hall a ha
        · exact (hall b hb).symm
        · rfl
  | removeOccupant hre hrem ih =>
      rename_i c c2 s
      unfold Cell.removeSymbiont at hrem
      split_ifs at hrem with hmem
      · injection hrem with h2
        subst h2
        refine ⟨?_, ?_⟩
        · calc (c.occupants.erase s).length ≤ c.occupants.length :=
                List.Sublist.length_le (c.occupants.erase_sublist s)
            _ ≤ c.maxOccupants := ih.1
        · intro a ha b hb
          exact ih.2 a (List.mem_of_mem_erase ha) b (List.mem_of_mem_erase hb)

/-- C7 witness: a concrete two-occupant cell reached by an arrival into
an empty cell followed by a division satisfies the invariant. -/
theorem cell_occupancy_invariant_witness :
    (⟨[⟨0, 5⟩, ⟨1, 5⟩], 2⟩ : Cell).occupants.length ≤ 2
    ∧ ∀ a ∈ (⟨[⟨0, 5⟩, ⟨1, 5⟩], 2⟩ : Cell).occupants,
        ∀ b ∈ (⟨[⟨0, 5⟩, ⟨1, 5⟩], 2⟩ : Cell).occupants, a.clade = b.clade := by
  have hstep1 : ReachableCell ⟨[⟨0, 5⟩], 2⟩ :=
    @ReachableCell.addToEmpty ⟨[], 2⟩ ⟨[⟨0, 5⟩], 2⟩ ⟨0, 5⟩ (ReachableCell.init 2) rfl (by decide)
  have hstep2 : ReachableCell ⟨[⟨0, 5⟩, ⟨1, 5⟩], 2⟩ :=
    @ReachableCell.addAtDivision ⟨[⟨0, 5⟩], 2⟩ ⟨[⟨0, 5⟩, ⟨1, 5⟩], 2⟩ ⟨1, 5⟩ ⟨0, 5⟩ hstep1 (by decide) rfl (by decide)
  exact cell_occupancy_invariant hstep2

/-! Ordering of the event calendar. -/

theorem insertAllEvents_heap_sorted (evs : List Event) (el : EventList)
    (h : el.heap.Sorted eventLE) :
    (insertAllEvents el evs).heap.Sorted eventLE := by
  induction evs generalizing el with
  | nil => exact h
  | cons e rest ih => exact ih _ (List.Sorted.orderedInsert e el.heap h)

theorem popLiveLoop_spec {l : List Event} {e : Event} {rest : List Event}
    (h : EventList.popLiveLoop l = Except.ok (e, rest)) :
    List.Sublist (e :: rest) l ∧ e.type ≠ EventType.CANCELLED ∧
    l.filter (fun x => x.type != EventType.CANCELLED) =
      e :: rest.filter (fun x => x.type != EventType.CANCELLED) := by
  induction l with
  | nil => cases h
  | cons x xs ih =>
      by_cases hx : x.type = EventType.CANCELLED
      · rw [EventList.popLiveLoop, if_pos hx] at h
        obtain ⟨h1, h2, h3⟩ := ih h
        refine ⟨h1.cons x, h2, ?_⟩
        rw [List.filter_cons_of_neg (by simp [hx]), h3]
      · rw [EventList.popLiveLoop, if_neg hx] at h
        simp only [Except.ok.injEq, Prod.mk.injEq] at h
        obtain ⟨rfl, rfl⟩ := h
        exact ⟨List.Sublist.refl _, hx, List.filter_cons_of_pos (by simp [hx])⟩

theorem popLiveLoop_error {l : List Event} {err : PyErr}
    (h : EventList.popLiveLoop l = Except.error err) :
    l.filter (fun x => x.type != EventType.CANCELLED) = [] := by
  induction l with
  | nil => simp
  | cons x xs ih =>
      by_cases hx : x.type = EventType.CANCELLED
      · rw [EventList.popLiveLoop, if_pos hx] at h
        rw [List.filter_cons_of_neg (by simp [hx])]
        exact ih h
      · rw [EventList.popLiveLoop, if_neg hx] at h
        cases h

theorem getNextEvent_ok_some {el el2 : EventList} {e : Event}
    (h : el.getNextEvent = Except.ok (some e, el2)) :
    List.Sublist (e :: el2.heap) el.heap ∧ e.type ≠ EventType.CANCELLED := by
  unfold EventList.getNextEvent at h
  split_ifs at h with hemp
  · simp at h
  · cases hpop : EventList.popLiveLoop el.heap with
    | error err => rw [hpop] at h; cases h
    | ok pr =>
        obtain ⟨e2, rest⟩ := pr
        rw [hpop] at h
        dsimp only at h
        split_ifs at h with hfind
        · simp only [Except.ok.injEq, Prod.mk.injEq, Option.some.injEq] at h
          obtain ⟨rfl, rfl⟩ := h
          obtain ⟨h1, h2, -⟩ := popLiveLoop_spec hpop
          exact ⟨h1, h2⟩

theorem drain_sublist_live (fuel : ℕ) (el : EventList) :
    List.Sublist (EventList.drain fuel el) el.heap ∧
    ∀ e ∈ EventList.drain fuel el, e.type ≠ EventType.CANCELLED := by
  induction fuel generalizing el with
  | zero => simp [EventList.drain]
  | succ n ih =>
      rw [EventList.drain]
      cases hnext : el.getNextEvent with
      | error err => simp
      | ok pr =>
          obtain ⟨oe, el2⟩ := pr
          cases oe with
          | none => simp
          | some e =>
              obtain ⟨hsub, hlive⟩ := getNextEvent_ok_some hnext
              obtain ⟨ih1, ih2⟩ := ih el2
              refine ⟨?_, ?_⟩
              · exact List.Sublist.trans (ih1.cons₂ e) hsub
              · intro x hx
                rcases List.mem_cons.mp hx with rfl | hx2
                · exact hlive
                · exact ih2 x hx2

theorem find?_isSome_eraseP {α : Type} {p q : α → Bool} {l : List α}
    (h : (l.find? p).isSome = true) (hpq : ∀ a, p a = true → q a = false) :
    ((l.eraseP q).find? p).isSome = true := by
  induction l with
  | nil => simp at h
  | cons x xs ih =>
      by_cases hqx : q x = true
      · rw [List.eraseP_cons_of_pos hqx]
        have hpx : ¬ p x = true := by
          intro hp
          rw [hpq x hp] at hqx
          cases hqx
        rwa [List.find?_cons_of_neg _ hpx] at h
      · rw [List.eraseP_cons_of_neg (by simpa using hqx)]
        by_cases hpx : p x = true
        · rw [List.find?_cons_of_pos _ hpx]
          simp
        · rw [List.find?_cons_of_neg _ hpx] at h
          rw [List.find?_cons_of_neg _ hpx]
          exact ih h

theorem drain_complete (fuel : ℕ) (el : EventList)
    (hfind : ∀ e ∈ el.heap, e.type ≠ EventType.CANCELLED →
      ((el.finder.find? (fun kv => kv.1 == e.finderKey)).isSome = true))
    (hdist : el.heap.Pairwise (fun a b => a.finderKey ≠ b.finderKey))
    (hfuel : el.heap.length ≤ fuel) :
    EventList.drain fuel el =
      el.heap.filter (fun e => e.type != EventType.CANCELLED) := by
  induction fuel generalizing el with
  | zero =>
      have hnil : el.heap = [] := List.length_eq_zero.mp (Nat.le_zero.mp hfuel)
      rw [hnil]
      simp [EventList.drain]
  | succ n ih =>
      rw [EventList.drain]
      by_cases hemp : el.heap.isEmpty
      · have hnil : el.heap = [] := by simpa [List.isEmpty_iff] using hemp
        rw [EventList.getNextEvent, if_pos hemp, hnil]
        simp
      · cases hpop : EventList.popLiveLoop el.heap with
        | error err =>
            rw [EventList.getNextEvent, if_neg hemp, hpop]
            dsimp only
            rw [popLiveLoop_error hpop]
        | ok pr =>
            obtain ⟨e, rest⟩ := pr
            obtain ⟨hsub, hlive, hfil⟩ := popLiveLoop_spec hpop
            have hemem : e ∈ el.heap := hsub.subset (List.mem_cons_self e rest)
            have hkey := hfind e hemem hlive
            rw [EventList.getNextEvent, if_neg hemp, hpop]
            dsimp only
            rw [if_pos hkey, hfil]
            dsimp only
            congr 1
            have hpair : (e :: rest).Pairwise (fun a b => a.finderKey ≠ b.finderKey) :=
              hdist.sublist hsub
            have hrest_sub : List.Sublist rest el.heap :=
              (List.sublist_cons_self e rest).trans hsub
            apply ih
            · intro x hx hxl
              have hx_heap : x ∈ el.heap := hrest_sub.subset hx
              have hxkey := hfind x hx_heap hxl
              apply find?_isSome_eraseP hxkey
              intro kv hkv
              have h1 : kv.1 = x.finderKey := eq_of_beq hkv
              have h2 : e.finderKey ≠ x.finderKey := (List.pairwise_cons.mp hpair).1 x hx
              rw [h1]
              exact beq_eq_false_iff_ne.mpr fun hc => h2 hc.symm
            · exact (List.pairwise_cons.mp hpair).2
            · show rest.length ≤ n
              have := hsub.length_le
              simp only [List.length_cons] at this
              omega

theorem insertAll_invariant (evs : List Event) (el : EventList)
    (hI1 : ∀ x ∈ el.heap, ((el.finder.find? (fun kv => kv.1 == x.finderKey)).isSome = true))
    (hI2 : el.heap.Pairwise (fun a b => a.finderKey ≠ b.finderKey))
    (hcross : ∀ x ∈ el.heap, ∀ y ∈ evs, x.finderKey ≠ y.finderKey)
    (hevs : evs.Pairwise (fun a b => a.finderKey ≠ b.finderKey)) :
    (∀ x ∈ (insertAllEvents el evs).heap,
        (((insertAllEvents el evs).finder.find? (fun kv => kv.1 == x.finderKey)).isSome = true))
    ∧ (insertAllEvents el evs).heap.Pairwise (fun a b => a.finderKey ≠ b.finderKey) := by
  induction evs generalizing el with
  | nil => exact ⟨hI1, hI2⟩
  | cons e rest ih =>
      have hperm := List.perm_orderedInsert eventLE e el.heap
      apply ih (el.insertEvent e)
      · intro x hx
        have hx2 : x ∈ e :: el.heap := hperm.mem_iff.mp hx
        rcases List.mem_cons.mp hx2 with rfl | hxh
        · show ((((x.finderKey, x.eventNum) ::
              el.finder.eraseP (fun kv => kv.1 == x.finderKey)).find?
                (fun kv => kv.1 == x.finderKey)).isSome = true)
          rw [List.find?_cons_of_pos _ (by simp)]
          rfl
        · have hxe : x.finderKey ≠ e.finderKey := hcross x hxh e (List.mem_cons_self e rest)
          show ((((e.finderKey, e.eventNum) ::
              el.finder.eraseP (fun kv => kv.1 == e.finderKey)).find?
                (fun kv => kv.1 == x.finderKey)).isSome = true)
          rw [List.find?_cons_of_neg _ (by
            simp only [beq_iff_eq]
            exact fun hc => hxe hc.symm)]
          apply find?_isSome_eraseP (hI1 x hxh)
          intro kv hkv
          have h1 : kv.1 = x.finderKey := eq_of_beq hkv
          rw [h1]
          exact beq_eq_false_iff_ne.mpr hxe
      · show (List.orderedInsert eventLE e el.heap).Pairwise _
        rw [hperm.pairwise_iff (fun h => Ne.symm h)]
        exact List.Pairwise.cons
          (fun y hy => fun hc => hcross y hy e (List.mem_cons_self e rest) hc.symm)
          hI2
      · intro x hx y hy
        have hx2 : x ∈ e :: el.heap := hperm.mem_iff.mp hx
        rcases List.mem_cons.mp hx2 with rfl | hxh
        · exact (List.pairwise_cons.mp hevs).1 y hy
        · exact hcross x hxh y (List.mem_cons_of_mem e hy)
      · exact (List.pairwise_cons.mp hevs).2

/-- C2: the event-type ranks follow the fixed priority escape, digestion,
end-G0, end-G1SG2M, denouement, arrival, with the cancelled sentinel
last; for any sequence of insertEvent calls with event numbers assigned
by the monotone creation counter, successive getNextEvent calls yield
only live events, in non-decreasing (time, kindRank, sequenceNumber)
order, and with enough fuel they yield exactly the live events of the
calendar. -/
theorem event_calendar_ordering (specs : List (ℚ × EventType × ℕ)) (cnt fuel : ℕ)
    (hkeys : (mkEventsFrom cnt specs).Pairwise (fun a b => a.finderKey ≠ b.finderKey)) :
    (EventType.ESCAPE.val < EventType.DIGESTION.val
      ∧ EventType.DIGESTION.val < EventType.END_G0.val
      ∧ EventType.END_G0.val < EventType.END_G1SG2M.val
      ∧ EventType.END_G1SG2M.val < EventType.DENOUEMENT.val
      ∧ EventType.DENOUEMENT.val < EventType.ARRIVAL.val
      ∧ EventType.ARRIVAL.val < EventType.CANCELLED.val)
    ∧ (EventList.drain fuel (insertAllEvents EventList.empty (mkEventsFrom cnt specs))).Sorted eventLE
    ∧ (∀ e ∈ EventList.drain fuel (insertAllEvents EventList.empty (mkEventsFrom cnt specs)),
        e.type ≠ EventType.CANCELLED)
    ∧ ((insertAllEvents EventList.empty (mkEventsFrom cnt specs)).heap.length ≤ fuel →
        EventList.drain fuel (insertAllEvents EventList.empty (mkEventsFrom cnt specs)) =
          (insertAllEvents EventList.empty (mkEventsFrom cnt specs)).heap.filter
            (fun e => e.type != EventType.CANCELLED)) := by
  have hsorted : (insertAllEvents EventList.empty (mkEventsFrom cnt specs)).heap.Sorted eventLE :=
    insertAllEvents_heap_sorted _ _ (by simp [EventList.empty])
  have hinv := insertAll_invariant (mkEventsFrom cnt specs) EventList.empty
    (by intro x hx; simp [EventList.empty] at hx)
    (by simp [EventList.empty])
    (by intro x hx; simp [EventList.empty] at hx)
    hkeys
  obtain ⟨hds, hlv⟩ :=
    drain_sublist_live fuel (insertAllEvents EventList.empty (mkEventsFrom cnt specs))
  refine ⟨by decide, List.Pairwise.sublist hds hsorted, hlv, ?_⟩
  intro hfuel
  exact drain_complete fuel _ (fun e he _ => hinv.1 e he) hinv.2 hfuel

/-- C2 witness: four concrete insertions drain in ascending key order,
with the same-time escape ahead of the same-time digestion. -/
theorem event_calendar_ordering_witness :
    ((mkEventsFrom 0 [(3, EventType.END_G0, 0), (1, EventType.DIGESTION, 1),
        (1, EventType.ESCAPE, 2), (2, EventType.ARRIVAL, 3)]).Pairwise
      (fun a b => a.finderKey ≠ b.finderKey))
    ∧ (EventList.drain 4 (insertAllEvents EventList.empty
        (mkEventsFrom 0 [(3, EventType.END_G0, 0), (1, EventType.DIGESTION, 1),
          (1, EventType.ESCAPE, 2), (2, EventType.ARRIVAL, 3)]))).Sorted eventLE
    ∧ EventList.drain 4 (insertAllEvents EventList.empty
        (mkEventsFrom 0 [(3, EventType.END_G0, 0), (1, EventType.DIGESTION, 1),
          (1, EventType.ESCAPE, 2), (2, EventType.ARRIVAL, 3)])) =
        [⟨1, EventType.ESCAPE, 2, 2⟩, ⟨1, EventType.DIGESTION, 1, 1⟩,
         ⟨2, EventType.ARRIVAL, 3, 3⟩, ⟨3, EventType.END_G0, 0, 0⟩] := by
  refine ⟨by decide, ?_, by decide⟩
  exact (event_calendar_ordering [(3, EventType.END_G0, 0), (1, EventType.DIGESTION, 1),
    (1, EventType.ESCAPE, 2), (2, EventType.ARRIVAL, 3)] 0 4 (by decide)).2.1

end SpongeABM
